import Mathlib

/-!
Verification development for the Gensokyo Daily news-fetching pipeline
(`fetch_news.py`): a shallow embedding of the relevance classifier, the
WBI request signer, and the aggregation/merge store, together with
theorems settling the specification claims.
-/

/-! ### Python string primitives

`pyLower` models Python `str.lower` on the ASCII range (every cased
character occurring in the keyword tables is ASCII).  `strIn needle hay`
models Python's substring test `needle in hay` on code-point sequences. -/

def charLower (c : Char) : Char :=
  if 'A' ≤ c ∧ c ≤ 'Z' then Char.ofNat (c.toNat + 32) else c

def pyLower (s : String) : String := String.mk (s.toList.map charLower)

/-- `listStarts hay needle`: `needle` is an initial segment of `hay`. -/
def listStarts : List Char → List Char → Bool
  | _, [] => true
  | [], _ :: _ => false
  | h :: hs, n :: ns => h == n && listStarts hs ns

/-- `listHasSub hay needle`: `needle` occurs contiguously inside `hay`. -/
def listHasSub : List Char → List Char → Bool
  | [], needle => needle.isEmpty
  | h :: t, needle => listStarts (h :: t) needle || listHasSub t needle

/-- Python's `needle in hay` for strings. -/
def strIn (needle hay : String) : Bool := listHasSub hay.toList needle.toList

/-! ### Keyword tables (`fetch_news.py` lines 96–196), transcribed verbatim -/

def CORE_KEYWORDS : List String := [
  "东方project", "東方project", "touhou project", "touhou",
  "トウホウ", "とうほう",
  "幻想乡", "幻想郷", "gensokyo",
  "博丽神社", "博麗神社", "hakurei",
  "ZUN", "上海爱丽丝", "上海アリス幻樂団",
  "例大祭", "reitaisai",
  "thwiki", "THBWiki", "东方吧", "东方MMD"]

def CHARACTER_KEYWORDS : List String := [
  "灵梦", "霊夢", "reimu",
  "魔理沙", "marisa",
  "咲夜", "sakuya",
  "琪露诺", "チルノ", "cirno",
  "妖梦", "妖夢", "youmu",
  "幽幽子", "yuyuko",
  "蕾米莉亚", "remilia",
  "芙兰朵露", "flandre",
  "帕秋莉", "patchouli",
  "射命丸文", "aya shameimaru",
  "河城荷取", "nitori",
  "八云紫", "八雲紫", "yukari",
  "藤原妹红", "mokou",
  "鬼人正邪", "seija",
  "古明地觉", "古明地恋", "satori", "koishi",
  "风见幽香", "yuuka",
  "四季映姬", "eiki",
  "小野塚小町", "komachi",
  "因幡帝", "tewi",
  "铃仙", "鈴仙", "reisen",
  "永琳", "eirin",
  "辉夜", "輝夜", "kaguya",
  "红美铃", "meiling",
  "爱丽丝", "alice margatroid",
  "西行寺", "saigyouji",
  "博丽", "博麗",
  "八云蓝", "八雲藍", "ran",
  "露娜切露德", "luna child"]

def GAME_KEYWORDS : List String := [
  "红魔乡", "紅魔郷", "红魔馆", "紅魔館",
  "妖妖梦", "妖々夢",
  "永夜抄",
  "花映塚",
  "风神录", "風神録",
  "地灵殿", "地霊殿",
  "星莲船", "星蓮船",
  "神灵庙", "神霊廟",
  "辉针城", "輝針城",
  "绀珠传", "紺珠伝",
  "天空璋",
  "鬼形兽", "鬼形獣",
  "虹龙洞", "虹龍洞",
  "兽王园", "獣王園",
  "献华抄",
  "刚欲异闻",
  "东方红魔乡", "东方妖妖梦", "东方永夜抄",
  "东方风神录", "东方地灵殿", "东方星莲船",
  "东方神灵庙", "东方辉针城", "东方绀珠传",
  "东方天空璋", "东方鬼形兽", "东方虹龙洞",
  "东方兽王园", "东方献华抄", "东方刚欲异闻"]

def MUSIC_KEYWORDS : List String := [
  "东方arrange", "东方编曲", "东方同人音乐",
  "U.N.オーエンは彼女なのか", "ネクロファンタジア",
  "bad apple", "色は匂へど散りぬるを",
  "东方vocal", "东方remix",
  "秘封俱乐部", "秘封倶楽部"]

def BLACKLIST_KEYWORDS : List String := [
  "原神", "Genshin", "米哈游", "miHoYo", "提瓦特",
  "崩坏", "Honkai", "星穹铁道", "StarRail", "Star Rail", "绝区零", "ZZZ",
  "明日方舟", "Arknights", "鹰角", "Hypergryph", "泰拉大陆",
  "碧蓝档案", "BlueArchive", "Blue Archive", "蔚蓝档案",
  "王者荣耀", "LOL", "英雄联盟", "永劫无间", "Naraka",
  "第五人格", "阴阳师", "赛马娘",
  "Fate", "FGO", "Fate/Grand Order",
  "超时空辉夜姬", "超時空輝夜姫",
  "Hololive", "Nijisanji", "Asoul", "嘉然", "贝拉",
  "初音", "Miku", "洛天依", "Vocaloid",
  "互动视频", "抽奖", "测试", "作业", "课堂", "教程"]

def TOUHOU_KEYWORDS : List String :=
  CORE_KEYWORDS ++ CHARACTER_KEYWORDS ++ GAME_KEYWORDS ++ MUSIC_KEYWORDS

/-! ### The relevance classifier (`is_touhou_related`, lines 252–279) -/

/-- The override test inside the blacklist veto: the text (already
lowercased) contains the brand term in one of two scripts or the
canonical english token. -/
def touhouOverride (text_lower : String) : Bool :=
  strIn "东方" text_lower || strIn "東方" text_lower || strIn "touhou" text_lower

/-- Does any positive (core ∪ character ∪ work ∪ music) term occur in the
lowercased text? -/
def touhouPositive (text_lower : String) : Bool :=
  TOUHOU_KEYWORDS.any (fun kw => strIn (pyLower kw) text_lower)

/-- Does any blacklist term occur in the lowercased text? -/
def touhouBlacklisted (text_lower : String) : Bool :=
  BLACKLIST_KEYWORDS.any (fun bad_word => strIn (pyLower bad_word) text_lower)

/-- `is_touhou_related` from `fetch_news.py`: empty text is rejected;
then each blacklist term vetoes unless the override test passes (the
loop `continue`s past a vetoing word exactly when the override holds,
and the override does not depend on the word, so the loop rejects iff
some blacklist word matches and the override fails); finally any
positive keyword accepts. -/
def is_touhou_related (text : String) : Bool :=
  if text == "" then false
  else
    let text_lower := pyLower text
    if BLACKLIST_KEYWORDS.any (fun bad_word =>
        strIn (pyLower bad_word) text_lower && !touhouOverride text_lower) then
      false
    else
      touhouPositive text_lower


/-! ### UTF-8 encoding (Python `str.encode("utf-8")`) as byte lists -/

def utf8CharBytes (n : Nat) : List Nat :=
  if n < 128 then [n]
  else if n < 2048 then [192 + n / 64, 128 + n % 64]
  else if n < 65536 then [224 + n / 4096, 128 + (n / 64) % 64, 128 + n % 64]
  else [240 + n / 262144, 128 + (n / 4096) % 64, 128 + (n / 64) % 64, 128 + n % 64]

def utf8Bytes (s : String) : List Nat :=
  (s.toList.map (fun c => utf8CharBytes c.toNat)).flatten

/-! ### MD5 (`hashlib.md5`), on byte lists, words as `Nat` mod 2^32 -/

def w32 : Nat := 4294967296
def mask32 : Nat := 4294967295

def md5K : List Nat := [
  3614090360, 3905402710, 606105819, 3250441966, 4118548399, 1200080426, 2821735955, 4249261313,
  1770035416, 2336552879, 4294925233, 2304563134, 1804603682, 4254626195, 2792965006, 1236535329,
  4129170786, 3225465664, 643717713, 3921069994, 3593408605, 38016083, 3634488961, 3889429448,
  568446438, 3275163606, 4107603335, 1163531501, 2850285829, 4243563512, 1735328473, 2368359562,
  4294588738, 2272392833, 1839030562, 4259657740, 2763975236, 1272893353, 4139469664, 3200236656,
  681279174, 3936430074, 3572445317, 76029189, 3654602809, 3873151461, 530742520, 3299628645,
  4096336452, 1126891415, 2878612391, 4237533241, 1700485571, 2399980690, 4293915773, 2240044497,
  1873313359, 4264355552, 2734768916, 1309151649, 4149444226, 3174756917, 718787259, 3951481745]

def md5S : List Nat := [
  7, 12, 17, 22, 7, 12, 17, 22, 7, 12, 17, 22, 7, 12, 17, 22,
  5, 9, 14, 20, 5, 9, 14, 20, 5, 9, 14, 20, 5, 9, 14, 20,
  4, 11, 16, 23, 4, 11, 16, 23, 4, 11, 16, 23, 4, 11, 16, 23,
  6, 10, 15, 21, 6, 10, 15, 21, 6, 10, 15, 21, 6, 10, 15, 21]

/-- Left-rotation of a 32-bit word (argument below `2^32`). -/
def rotl32 (x n : Nat) : Nat := (x * 2 ^ n + x / 2 ^ (32 - n)) % w32

/-- `k` bytes of `n`, little-endian. -/
def leBytes (n k : Nat) : List Nat :=
  match k with
  | 0 => []
  | k + 1 => n % 256 :: leBytes (n / 256) k

/-- Word `i` of a 64-byte block, little-endian. -/
def leWord (bs : List Nat) (i : Nat) : Nat :=
  bs.getD (4 * i) 0 + 256 * bs.getD (4 * i + 1) 0
    + 65536 * bs.getD (4 * i + 2) 0 + 16777216 * bs.getD (4 * i + 3) 0

/-- MD5 padding: `0x80`, zeros to 56 mod 64, then the bit length as
eight little-endian bytes. -/
def md5Pad (msg : List Nat) : List Nat :=
  let padZeros := (56 + 64 - (msg.length + 1) % 64) % 64
  msg ++ [128] ++ List.replicate padZeros 0 ++ leBytes (8 * msg.length) 8

/-- Split into 64-byte chunks; the fuel (initially the length) makes the
recursion structural, and one unit per chunk suffices since every
non-final step consumes 64 bytes. -/
def chunks64Go : Nat → List Nat → List (List Nat)
  | 0, _ => []
  | _, [] => []
  | fuel + 1, b :: bs => (b :: bs).take 64 :: chunks64Go fuel ((b :: bs).drop 64)

def chunks64 (bs : List Nat) : List (List Nat) := chunks64Go bs.length bs

def md5F (i b c d : Nat) : Nat :=
  if i < 16 then (b &&& c) ||| ((mask32 ^^^ b) &&& d)
  else if i < 32 then (d &&& b) ||| ((mask32 ^^^ d) &&& c)
  else if i < 48 then b ^^^ c ^^^ d
  else c ^^^ (b ||| (mask32 ^^^ d))

def md5G (i : Nat) : Nat :=
  if i < 16 then i
  else if i < 32 then (5 * i + 1) % 16
  else if i < 48 then (3 * i + 5) % 16
  else (7 * i) % 16

def md5Step (M : List Nat) (st : Nat × Nat × Nat × Nat) (i : Nat) : Nat × Nat × Nat × Nat :=
  match st with
  | (a, b, c, d) =>
    let f := (md5F i b c d + a + md5K.getD i 0 + M.getD (md5G i) 0) % w32
    (d, (b + rotl32 f (md5S.getD i 0)) % w32, b, c)

def md5Block (st : Nat × Nat × Nat × Nat) (block : List Nat) : Nat × Nat × Nat × Nat :=
  let M := (List.range 16).map (leWord block)
  match st, (List.range 64).foldl (md5Step M) st with
  | (a0, b0, c0, d0), (a, b, c, d) =>
    ((a0 + a) % w32, (b0 + b) % w32, (c0 + c) % w32, (d0 + d) % w32)

def md5Bytes (msg : List Nat) : List Nat :=
  match (chunks64 (md5Pad msg)).foldl md5Block (1732584193, 4023233417, 2562383102, 271733878) with
  | (a, b, c, d) => leBytes a 4 ++ leBytes b 4 ++ leBytes c 4 ++ leBytes d 4

def hexDigitLower (n : Nat) : Char :=
  if n < 10 then Char.ofNat (48 + n) else Char.ofNat (87 + n)

def byteHexLower (b : Nat) : List Char := [hexDigitLower (b / 16), hexDigitLower (b % 16)]

/-- `hashlib.md5(s.encode("utf-8")).hexdigest()`. -/
def md5HexOfString (s : String) : String :=
  String.mk ((md5Bytes (utf8Bytes s)).map byteHexLower).flatten

/-! ### WBI signing (`get_mixin_key` / `enc_wbi`, lines 36–58) -/

def mixin_key_enc_tab : List Nat := [
  46, 47, 18, 2, 53, 8, 23, 32, 15, 50, 10, 31, 58, 3, 45, 35, 27, 43, 5, 49,
  33, 9, 42, 19, 29, 28, 14, 39, 12, 38, 41, 13, 37, 48, 7, 16, 24, 55, 40,
  61, 26, 17, 0, 1, 60, 51, 30, 4, 22, 25, 54, 21, 56, 59, 6, 63, 57, 62, 11,
  36, 20, 34, 44, 52]

/-- `get_mixin_key`: pick the characters of `orig` at the permutation
table's positions, keep the first 32.  Python raises `IndexError` when
an index is out of range; that is modelled as `none`. -/
def get_mixin_key (orig : String) : Option String :=
  (mixin_key_enc_tab.mapM (fun i => orig.toList.get? i)).map
    (fun cs => String.mk (cs.take 32))

/-- Python code-point-lexicographic strict order on strings. -/
def listLexLt : List Char → List Char → Bool
  | _, [] => false
  | [], _ :: _ => true
  | a :: as, b :: bs => decide (a.toNat < b.toNat) || (a == b && listLexLt as bs)

def strLtPy (s t : String) : Bool := listLexLt s.toList t.toList

def strLePy (s t : String) : Bool := strLtPy s t || s == t

/-- Python tuple comparison on `(key, value)` pairs, as used by
`sorted(params.items())`. -/
def kvLe (a b : String × String) : Bool :=
  strLtPy a.1 b.1 || (a.1 == b.1 && strLePy a.2 b.2)

def kvLeP (a b : String × String) : Prop := kvLe a b = true

instance : DecidableRel kvLeP := fun a b => instDecidableEqBool (kvLe a b) true

/-- `sorted(params.items())`.  Python's sort is stable; `insertionSort`
is also stable, and a stable sort's output is uniquely determined by the
ordering, so the two agree. -/
def sortParams (ps : List (String × String)) : List (String × String) :=
  ps.insertionSort kvLeP

/-- Python `d[k] = v` on an insertion-ordered dict rendered as a pair
list: replace in place when the key exists, else append. -/
def upsertKV (m : List (String × String)) (k v : String) : List (String × String) :=
  if m.any (fun p => p.1 == k) then m.map (fun p => if p.1 == k then (k, v) else p)
  else m ++ [(k, v)]

def kvLookup (k : String) : List (String × String) → Option String
  | [] => none
  | p :: rest => if p.1 == k then some p.2 else kvLookup k rest

/-- Byte never percent-quoted by `urllib.parse.quote`: ASCII letters,
digits, and `_.-~`. -/
def quoteSafe (b : Nat) : Bool :=
  (48 ≤ b && b ≤ 57) || (65 ≤ b && b ≤ 90) || (97 ≤ b && b ≤ 122)
    || b == 45 || b == 46 || b == 95 || b == 126

def hexDigitUpper (n : Nat) : Char :=
  if n < 10 then Char.ofNat (48 + n) else Char.ofNat (55 + n)

/-- `urllib.parse.quote_plus`: safe bytes pass through, space becomes
`+`, every other UTF-8 byte becomes `%XX` (uppercase hex). -/
def quote_plus (s : String) : String :=
  String.mk (((utf8Bytes s).map (fun b =>
    if quoteSafe b then [Char.ofNat b]
    else if b == 32 then ['+']
    else ['%', hexDigitUpper (b / 16), hexDigitUpper (b % 16)])).flatten)

/-- `urllib.parse.urlencode` over an ordered mapping whose keys and
values are already strings. -/
def urlencodeKV (ps : List (String × String)) : String :=
  String.intercalate "&" (ps.map (fun p => quote_plus p.1 ++ "=" ++ quote_plus p.2))

/-- `enc_wbi`: derive the mixin key, add `wts`, key-sort the params,
URL-encode them, and append `w_rid`, the MD5 of the query string
concatenated with the mixin key.  Non-string parameter values have
already been rendered with `str` (Python's `urlencode` does the same),
and the timestamp is passed in (`round(time.time())` at the caller). -/
def enc_wbi (params : List (String × String)) (img_key sub_key : String) (wts : Nat) :
    Option (List (String × String)) :=
  (get_mixin_key (img_key ++ sub_key)).map (fun mixin_key =>
    let ps := upsertKV params "wts" (toString wts)
    let sorted := sortParams ps
    let query := urlencodeKV sorted
    let w_rid := md5HexOfString (query ++ mixin_key)
    upsertKV sorted "w_rid" w_rid)


/-! ### Timestamp parsing

`pyParseTs` models `datetime.fromisoformat(s).timestamp()` (microseconds
since the Unix epoch, exact integers instead of floats) for the ISO-8601
shapes the pipeline produces and consumes:
`YYYY-MM-DD[{T| }HH:MM:SS[.f{1,}][±HH:MM|Z]]`.  A naive timestamp (no
offset) is interpreted as UTC, matching both the runner's UTC clock and
the explicit `replace(tzinfo=timezone.utc)` in the merge step.  Any
other shape is `none` (Python raises `ValueError`). -/

def digitVal (c : Char) : Option Nat :=
  if '0' ≤ c ∧ c ≤ '9' then some (c.toNat - 48) else none

def readNDigits : Nat → Nat → List Char → Option (Nat × List Char)
  | 0, acc, cs => some (acc, cs)
  | k + 1, acc, cs =>
    match cs with
    | [] => none
    | c :: rest =>
      match digitVal c with
      | some d => readNDigits k (10 * acc + d) rest
      | none => none

def expectChar (c : Char) : List Char → Option (List Char)
  | [] => none
  | x :: rest => if x == c then some rest else none

def readAllDigits : List Char → (List Nat × List Char)
  | [] => ([], [])
  | c :: rest =>
    match digitVal c with
    | some d =>
      match readAllDigits rest with
      | (ds, r) => (d :: ds, r)
    | none => ([], c :: rest)

def isLeapYear (y : Nat) : Bool := (y % 4 == 0 && y % 100 != 0) || y % 400 == 0

def daysInMonth (y m : Nat) : Nat :=
  if m == 2 then (if isLeapYear y then 29 else 28)
  else if m == 4 || m == 6 || m == 9 || m == 11 then 30
  else 31

/-- Days from 1970-01-01 to year/month/day (proleptic Gregorian). -/
def daysFromCivil (y m d : Nat) : Int :=
  let yi : Int := if m ≤ 2 then (y : Int) - 1 else (y : Int)
  let era : Int := yi.fdiv 400
  let yoe : Int := yi - era * 400
  let mp : Int := ((m : Int) + 9) % 12
  let doy : Int := (153 * mp + 2).fdiv 5 + (d : Int) - 1
  let doe : Int := yoe * 365 + yoe.fdiv 4 - yoe.fdiv 100 + doy
  era * 146097 + doe - 719468

def readFraction : List Char → Option (Nat × List Char)
  | '.' :: rest =>
    match readAllDigits rest with
    | (ds, rest2) =>
      if ds.isEmpty then none
      else
        let ds6 := ds.take 6
        some ((ds6.foldl (fun a d => 10 * a + d) 0) * 10 ^ (6 - ds6.length), rest2)
  | other => some (0, other)

def readOffsetSec : List Char → Option Int
  | [] => some 0
  | ['Z'] => some 0
  | sgn :: rest =>
    if sgn == '+' || sgn == '-' then do
      let (oh, rest1) ← readNDigits 2 0 rest
      let rest2 ← expectChar ':' rest1
      let (om, rest3) ← readNDigits 2 0 rest2
      if rest3.isEmpty && oh < 24 && om < 60 then
        let mag : Int := ((oh * 3600 + om * 60 : Nat) : Int)
        some (if sgn == '+' then mag else -mag)
      else none
    else none

def pyParseTs (s : String) : Option Int := do
  let cs := s.toList
  let (y, cs) ← readNDigits 4 0 cs
  let cs ← expectChar '-' cs
  let (mo, cs) ← readNDigits 2 0 cs
  let cs ← expectChar '-' cs
  let (d, cs) ← readNDigits 2 0 cs
  if mo < 1 || 12 < mo || d < 1 || daysInMonth y mo < d then none
  else
    match cs with
    | [] => some (daysFromCivil y mo d * 86400 * 1000000)
    | sep :: cs =>
      if sep == 'T' || sep == ' ' then do
        let (h, cs) ← readNDigits 2 0 cs
        let cs ← expectChar ':' cs
        let (mi, cs) ← readNDigits 2 0 cs
        let cs ← expectChar ':' cs
        let (sec, cs) ← readNDigits 2 0 cs
        if 23 < h || 59 < mi || 59 < sec then none
        else do
          let (micro, cs) ← readFraction cs
          let offSec ← readOffsetSec cs
          some ((daysFromCivil y mo d * 86400
                  + ((h * 3600 + mi * 60 + sec : Nat) : Int) - offSec) * 1000000
                + (micro : Int))
      else none


/-! ### Items and the aggregation store (`fetch_all_news` lines 921–949,
`merge_with_existing` lines 956–996)

Only the fields the store consults are modelled; `title` stands in for
the rest of the payload so that two items with the same id can differ. -/

structure NewsItem where
  id : String
  title : String
  priority : Option Int
  published : Option String
deriving DecidableEq

def MAX_ITEMS_PER_CATEGORY : Nat := 50

def MAX_AGE_DAYS : Nat := 30

/-- `_ts`: parse `item.get("published", "")`; any failure yields `0`
(the epoch), via the bare `except`. -/
def itemTs (it : NewsItem) : Int :=
  match it.published with
  | none => 0
  | some s => (pyParseTs s).getD 0

/-- `item.get("priority", 99)`. -/
def itemPriority (it : NewsItem) : Int := it.priority.getD 99

/-- The sort key `(priority asc, -_ts asc)` of the fresh reduce step, as
a non-strict total order for the stable sort. -/
def itemLe (a b : NewsItem) : Prop :=
  itemPriority a < itemPriority b ∨ (itemPriority a = itemPriority b ∧ -itemTs a ≤ -itemTs b)

instance (a b : NewsItem) : Decidable (itemLe a b) := by unfold itemLe; infer_instance

/-- Dedup by id, first occurrence wins (the `seen_ids` set loop). -/
def dedupeGo (seen : List String) : List NewsItem → List NewsItem
  | [] => []
  | it :: rest =>
    if it.id ∈ seen then dedupeGo seen rest
    else it :: dedupeGo (it.id :: seen) rest

def dedupeById (l : List NewsItem) : List NewsItem := dedupeGo [] l

/-- The per-category finalisation in `fetch_all_news`: dedup by id,
stable-sort by `(priority, -_ts)`, truncate to the cap.  Python's sort
is stable and so is `insertionSort`; a stable sort's output is uniquely
determined by the ordering, so the two agree. -/
def reduceCategory (l : List NewsItem) : List NewsItem :=
  ((dedupeById l).insertionSort itemLe).take MAX_ITEMS_PER_CATEGORY

def cutoffMicros (now : Int) : Int := now - (MAX_AGE_DAYS : Int) * 86400 * 1000000

/-- The retention test of `merge_with_existing`: an old item survives
only when its `published` field is present, parses, and is strictly
after `now - MAX_AGE_DAYS`; `KeyError`/`ValueError` land in the
`except: pass` and drop the item.  (`fromisoformat` plus the explicit
naive→UTC `replace` is exactly `pyParseTs`.) -/
def oldKeep (now : Int) (old : NewsItem) : Bool :=
  match old.published with
  | none => false
  | some s =>
    match pyParseTs s with
    | none => false
    | some t => decide (cutoffMicros now < t)

/-- Python `dict[k] = v` on the id-keyed item dict. -/
def dictInsertItem (m : List NewsItem) (it : NewsItem) : List NewsItem :=
  if m.any (fun x => x.id == it.id) then m.map (fun x => if x.id == it.id then it else x)
  else m ++ [it]

/-- `{item["id"]: item for item in cat_data["items"]}`. -/
def freshDict (fresh : List NewsItem) : List NewsItem := fresh.foldl dictInsertItem []

/-- One iteration of the old-item loop: skip when the id is already
present, otherwise keep the old item iff it passes retention. -/
def addOldItem (now : Int) (m : List NewsItem) (old : NewsItem) : List NewsItem :=
  if m.any (fun x => x.id == old.id) then m
  else if oldKeep now old then m ++ [old] else m

/-- `list(new_items.values())` after the old-item loop. -/
def mergeCandidates (now : Int) (fresh oldL : List NewsItem) : List NewsItem :=
  oldL.foldl (addOldItem now) (freshDict fresh)

def pubSortKey (it : NewsItem) : String := it.published.getD ""

/-- `sort(key=lambda x: x.get("published", ""), reverse=True)`: stable
descending order on the raw `published` string. -/
def pubDescLe (a b : NewsItem) : Prop := strLePy (pubSortKey b) (pubSortKey a) = true

instance (a b : NewsItem) : Decidable (pubDescLe a b) := by unfold pubDescLe; infer_instance

/-- The whole per-category merge: id-keyed union (fresh wins), recency
sort, truncation. -/
def mergeCategoryItems (now : Int) (fresh oldL : List NewsItem) : List NewsItem :=
  ((mergeCandidates now fresh oldL).insertionSort pubDescLe).take MAX_ITEMS_PER_CATEGORY

structure CatData where
  label : String
  items : List NewsItem
  count : Nat
deriving DecidableEq

def kvFind (k : String) : List (String × CatData) → Option CatData
  | [] => none
  | p :: rest => if p.1 == k then some p.2 else kvFind k rest

/-- How reading the persisted snapshot at the top of
`merge_with_existing` can go: the `os.path.exists` guard, the two caught
exceptions of the `open`/`json.load` block, or a loaded `categories`
mapping (`existing.get("categories", {})`). -/
inductive SnapshotLoad
  | missing
  | unreadable
  | invalidJson
  | loaded (categories : List (String × CatData))

/-- The per-category loop of `merge_with_existing` in the loaded case:
for each fresh category, merge against the same-named persisted category
(absent ⇒ no old items), and refresh the count. -/
def mergeCats (now : Int) (ex nd : List (String × CatData)) : List (String × CatData) :=
  nd.map (fun p =>
    let oldItems :=
      match kvFind p.1 ex with
      | some old => old.items
      | none => []
    let merged := mergeCategoryItems now p.2.items oldItems
    (p.1, { p.2 with items := merged, count := merged.length }))

/-- `merge_with_existing`: a missing, unreadable, or non-JSON snapshot
returns the fresh data unchanged; otherwise every fresh category is
merged against the persisted one. -/
def merge_with_existing (now : Int) (load : SnapshotLoad)
    (new_data : List (String × CatData)) : List (String × CatData) :=
  match load with
  | .loaded ex => mergeCats now ex new_data
  | _ => new_data

/-! ### Order instances and sample data -/

instance : IsTotal NewsItem itemLe := ⟨fun a b => by unfold itemLe; omega⟩

instance : IsTrans NewsItem itemLe := ⟨fun a b c => by unfold itemLe; omega⟩

def itemDated1960 : NewsItem :=
  ⟨"a", "dated 1960", some 1, some "1960-01-01T00:00:00+00:00"⟩

def itemNoDate : NewsItem := ⟨"b", "unparseable date", some 1, some "not-a-date"⟩

/-- 2024-01-31T00:00:00+00:00, in microseconds since the epoch. -/
def sampleNow : Int := 1706659200000000

def itemFreshSample : NewsItem :=
  ⟨"f1", "fresh item", some 1, some "2024-01-30T00:00:00+00:00"⟩

def itemAtCutoff : NewsItem :=
  ⟨"o1", "exactly at the retention boundary", some 2, some "2024-01-01T00:00:00+00:00"⟩

def itemJustInside : NewsItem :=
  ⟨"o2", "one second inside the boundary", some 2, some "2024-01-01T00:00:01+00:00"⟩

/-! ## Sanity checks

Concrete evaluations of the embedding, cross-checked against CPython's
`is_touhou_related`, `hashlib.md5`, `get_mixin_key`, `enc_wbi` and
`datetime.fromisoformat(...).timestamp()` on the same inputs. -/

lemma sanity_classifier :
    is_touhou_related "" = false
    ∧ is_touhou_related "原神 Touhou" = true
    ∧ is_touhou_related "东方" = false
    ∧ is_touhou_related "bad apple" = true := by
  refine ⟨by decide, by decide, by decide, by decide⟩

lemma sanity_md5 :
    md5HexOfString "abc" = "900150983cd24fb0d6963f7d28e17f72"
    ∧ md5HexOfString "" = "d41d8cd98f00b204e9800998ecf8427e" := by
  exact ⟨by decide, by decide⟩

lemma sanity_mixin_key :
    get_mixin_key ("0123456789abcdef0123456789abcdef"
        ++ "fedcba9876543210fedcba9876543210")
      = some "1022a87ffdaf532cb45ee953dce8c96d" := by
  decide

set_option maxRecDepth 4096 in
lemma sanity_enc_wbi :
    (enc_wbi [("rid", "25"), ("type", "all")] "0123456789abcdef0123456789abcdef"
        "fedcba9876543210fedcba9876543210" 1700000000).map (kvLookup "w_rid")
      = some (some "9b498a78b2777a96798ca2b3cf5ae7f0") := by
  decide

lemma sanity_parse :
    pyParseTs "2024-01-31T00:00:00+00:00" = some 1706659200000000
    ∧ pyParseTs "1960-01-01T00:00:00+00:00" = some (-315619200000000)
    ∧ pyParseTs "not-a-date" = none
    ∧ pyParseTs "2024-02-30T00:00:00+00:00" = none := by
  refine ⟨by decide, by decide, by decide, by decide⟩

/-! ## Claim theorems -/

/-! ### C1 — blacklist veto and its override markers -/

lemma text_ne_empty_of_strIn {needle text : String} (hne : needle ≠ "")
    (h : strIn needle (pyLower text) = true) : text ≠ "" := by
  intro he
  subst he
  have hn : needle.toList ≠ [] := fun hl => hne (by
    cases needle with
    | mk l => simp [String.toList] at hl; simp [hl])
  simp only [strIn, pyLower, listHasSub] at h
  cases hc : needle.toList with
  | nil => exact hn hc
  | cons a l =>
    rw [hc] at h
    simp [String.toList, List.isEmpty] at h

lemma classifier_eval (text : String) (h1 : text ≠ "") :
    is_touhou_related text =
      if BLACKLIST_KEYWORDS.any
          (fun bad_word => strIn (pyLower bad_word) (pyLower text)
            && !touhouOverride (pyLower text)) then false
      else touhouPositive (pyLower text) := by
  have hb : (text == "") = false := beq_eq_false_iff_ne.mpr h1
  unfold is_touhou_related
  rw [hb]
  simp

/-- C1 (amended): for every non-empty text containing a blacklist term,
the verdict of `is_touhou_related` is `false` when no override marker is
present, and is exactly the positive-keyword verdict when one is; the
override markers are the brand term in two scripts and the english token
(`东方`, `東方`, `touhou`) — the creator's handle is not one of them. -/
theorem blacklist_veto_override (text : String) (h1 : text ≠ "")
    (h2 : touhouBlacklisted (pyLower text) = true) :
    is_touhou_related text =
      if touhouOverride (pyLower text) = true then touhouPositive (pyLower text)
      else false := by
  rw [classifier_eval text h1]
  cases hov : touhouOverride (pyLower text) with
  | true =>
    have hany : (BLACKLIST_KEYWORDS.any
        (fun bad_word => strIn (pyLower bad_word) (pyLower text) && !true)) = false := by
      rw [List.any_eq_false]
      intro bw _
      simp
    rw [hany]
    simp
  | false =>
    obtain ⟨bw, hmem, hbw⟩ := List.any_eq_true.mp h2
    have hany : (BLACKLIST_KEYWORDS.any
        (fun bad_word => strIn (pyLower bad_word) (pyLower text) && !false)) = true := by
      rw [List.any_eq_true]
      exact ⟨bw, hmem, by simp [hbw]⟩
    rw [hany]
    simp

theorem blacklist_veto_override_witness :
    is_touhou_related "原神 touhou" =
      if touhouOverride (pyLower "原神 touhou") = true
      then touhouPositive (pyLower "原神 touhou") else false :=
  blacklist_veto_override "原神 touhou" (by decide) (by decide)

/-- C1, as stated, is false: the claim lists the creator's handle among
the override markers, but the code checks only `东方`/`東方`/`touhou`.
The text `"原神 ZUN"` contains a blacklist term and the creator's
handle, and a positive keyword matches, yet `is_touhou_related` rejects
it — so with the claimed override set, the verdict is not decided by the
positive-keyword step. -/
theorem blacklist_override_includes_handle_refuted :
    ¬ (∀ text : String, text ≠ "" →
        touhouBlacklisted (pyLower text) = true →
        (strIn "东方" (pyLower text) || strIn "東方" (pyLower text)
          || strIn "touhou" (pyLower text) || strIn "zun" (pyLower text)) = true →
        is_touhou_related text = touhouPositive (pyLower text)) := by
  intro h
  have hc := h "原神 ZUN" (by decide) (by decide) (by decide)
  exact absurd hc (by decide)

/-! ### C10 — the english token cancels every veto and is itself positive -/

/-- C10: any text whose lowercasing contains `touhou` is classified as
related, no matter which blacklist terms it also contains: that token is
an override marker, so no blacklist term can veto, and it is itself a
core keyword, so the positive step accepts. -/
theorem touhou_token_always_accepted (text : String)
    (h : strIn "touhou" (pyLower text) = true) :
    is_touhou_related text = true := by
  have h1 : text ≠ "" := text_ne_empty_of_strIn (by decide) h
  rw [classifier_eval text h1]
  have hov : touhouOverride (pyLower text) = true := by
    unfold touhouOverride
    simp [h]
  have hany : BLACKLIST_KEYWORDS.any
      (fun bad_word => strIn (pyLower bad_word) (pyLower text)
        && !touhouOverride (pyLower text)) = false := by
    rw [List.any_eq_false]
    intro bw _
    simp [hov]
  rw [hany]
  have hpos : touhouPositive (pyLower text) = true := by
    rw [touhouPositive, List.any_eq_true]
    exact ⟨"touhou", by decide, h⟩
  simp [hpos]

theorem touhou_token_always_accepted_witness :
    is_touhou_related "原神 崩坏 TouHou 测试" = true :=
  touhou_token_always_accepted "原神 崩坏 TouHou 测试" (by decide)

/-! ### C4 — weak-root disambiguation behaviour -/

/-- C4: a text containing the ambiguous two-character root term `东方`
but no positive term at all is rejected (the bare root is not in any
keyword list), and a text containing the root term plus exactly one
character keyword and no blacklist term is accepted. -/
theorem weak_root_disambiguation :
    (∀ text : String, strIn "东方" (pyLower text) = true →
       (∀ kw ∈ TOUHOU_KEYWORDS, strIn (pyLower kw) (pyLower text) = false) →
       is_touhou_related text = false)
    ∧ (∀ text : String, strIn "东方" (pyLower text) = true →
       (CHARACTER_KEYWORDS.filter
         (fun k => strIn (pyLower k) (pyLower text))).length = 1 →
       touhouBlacklisted (pyLower text) = false →
       is_touhou_related text = true) := by
  constructor
  · intro text hroot hnone
    have h1 : text ≠ "" := text_ne_empty_of_strIn (by decide) hroot
    rw [classifier_eval text h1]
    have hpos : touhouPositive (pyLower text) = false := by
      rw [touhouPositive, List.any_eq_false]
      intro kw hkw
      simp [hnone kw hkw]
    cases hveto : BLACKLIST_KEYWORDS.any
        (fun bad_word => strIn (pyLower bad_word) (pyLower text)
          && !touhouOverride (pyLower text)) <;> simp [hpos]
  · intro text hroot hchar hnobl
    have h1 : text ≠ "" := text_ne_empty_of_strIn (by decide) hroot
    rw [classifier_eval text h1]
    have hveto : BLACKLIST_KEYWORDS.any
        (fun bad_word => strIn (pyLower bad_word) (pyLower text)
          && !touhouOverride (pyLower text)) = false := by
      rw [List.any_eq_false]
      intro bw hbw
      have := List.any_eq_false.mp hnobl bw hbw
      simp_all
    rw [hveto]
    have hne : CHARACTER_KEYWORDS.filter
        (fun k => strIn (pyLower k) (pyLower text)) ≠ [] := by
      intro he
      rw [he] at hchar
      simp at hchar
    obtain ⟨ck, hckmem⟩ := List.exists_mem_of_ne_nil _ hne
    have hck := List.mem_filter.mp hckmem
    have hpos : touhouPositive (pyLower text) = true := by
      rw [touhouPositive, List.any_eq_true]
      refine ⟨ck, ?_, hck.2⟩
      unfold TOUHOU_KEYWORDS
      simp [hck.1]
    simp [hpos]

set_option maxRecDepth 8192 in
theorem weak_root_disambiguation_witness :
    is_touhou_related "东方" = false ∧ is_touhou_related "东方灵梦" = true :=
  ⟨weak_root_disambiguation.1 "东方" (by decide) (by decide),
   weak_root_disambiguation.2 "东方灵梦" (by decide) (by decide) (by decide)⟩

/-! ### C6 — mixin-key derivation -/

lemma mapM_get?_of_lt (l : List Char) (d : Char) (tab : List Nat)
    (h : ∀ i ∈ tab, i < l.length) :
    tab.mapM l.get? = some (tab.map (fun i => l.getD i d)) := by
  induction tab with
  | nil => rfl
  | cons i tab ih =>
    have hi : i < l.length := h i (by simp)
    have hr := ih (fun j hj => h j (by simp [hj]))
    have hg : l.get? i = some (l.getD i d) := by
      rw [List.getD_eq_getElem?_getD, ← List.get?_eq_getElem?, List.get?_eq_get hi]
      rfl
    rw [List.mapM_cons, hg, hr]
    rfl

/-- C6: when the concatenated key material has 64 characters,
`get_mixin_key` succeeds and returns the 32-character string obtained by
reading the concatenation through the fixed permutation table and
truncating — character `j` of the result is character
`mixin_key_enc_tab[j]` of the input, which the `map`/`take 32`
formulation expresses position by position. -/
theorem mixin_key_projection (img_key sub_key : String)
    (h : (img_key ++ sub_key).toList.length = 64) :
    (get_mixin_key (img_key ++ sub_key)).isSome = true
    ∧ (get_mixin_key (img_key ++ sub_key)).getD ""
        = String.mk ((mixin_key_enc_tab.map
            (fun i => (img_key ++ sub_key).toList.getD i 'A')).take 32)
    ∧ ((get_mixin_key (img_key ++ sub_key)).getD "").length = 32 := by
  have hb : ∀ i ∈ mixin_key_enc_tab, i < (img_key ++ sub_key).toList.length := by
    rw [h]
    decide
  have hm := mapM_get?_of_lt (img_key ++ sub_key).toList 'A' mixin_key_enc_tab hb
  unfold get_mixin_key
  rw [hm]
  refine ⟨rfl, rfl, ?_⟩
  show ((mixin_key_enc_tab.map _).take 32).length = 32
  rw [List.length_take, List.length_map]
  decide

set_option maxRecDepth 4096 in
theorem mixin_key_projection_witness :
    (get_mixin_key ("0123456789abcdef0123456789abcdef"
        ++ "fedcba9876543210fedcba9876543210")).isSome = true
    ∧ (get_mixin_key ("0123456789abcdef0123456789abcdef"
        ++ "fedcba9876543210fedcba9876543210")).getD ""
        = String.mk ((mixin_key_enc_tab.map
            (fun i => ("0123456789abcdef0123456789abcdef"
              ++ "fedcba9876543210fedcba9876543210").toList.getD i 'A')).take 32)
    ∧ ((get_mixin_key ("0123456789abcdef0123456789abcdef"
        ++ "fedcba9876543210fedcba9876543210")).getD "").length = 32 :=
  mixin_key_projection "0123456789abcdef0123456789abcdef"
    "fedcba9876543210fedcba9876543210" (by decide)

/-! ### C3 — `enc_wbi` signing -/

lemma kvLookup_append_right (m : List (String × String)) (k v : String)
    (h : ∀ p ∈ m, (p.1 == k) = false) :
    kvLookup k (m ++ [(k, v)]) = some v := by
  induction m with
  | nil => simp [kvLookup]
  | cons p m ih =>
    have hp := h p (by simp)
    show kvLookup k (p :: (m ++ [(k, v)])) = some v
    rw [kvLookup, if_neg (by simp [hp])]
    exact ih (fun q hq => h q (by simp [hq]))

lemma kvLookup_map_replace (m : List (String × String)) (k v : String)
    (h : m.any (fun p => p.1 == k) = true) :
    kvLookup k (m.map (fun p => if p.1 == k then (k, v) else p)) = some v := by
  induction m with
  | nil => simp at h
  | cons p m ih =>
    by_cases hp : (p.1 == k) = true
    · show kvLookup k ((if p.1 == k then (k, v) else p)
        :: m.map (fun q => if q.1 == k then (k, v) else q)) = some v
      rw [if_pos hp, kvLookup, if_pos (by simp)]
    · have hp' : (p.1 == k) = false := by simpa using hp
      have h' : m.any (fun q => q.1 == k) = true := by
        rw [List.any_cons, hp'] at h
        simpa using h
      show kvLookup k ((if p.1 == k then (k, v) else p)
        :: m.map (fun q => if q.1 == k then (k, v) else q)) = some v
      rw [if_neg hp, kvLookup, if_neg (by simp [hp'])]
      exact ih h'

lemma upsertKV_lookup_self (m : List (String × String)) (k v : String) :
    kvLookup k (upsertKV m k v) = some v := by
  unfold upsertKV
  by_cases h : m.any (fun p => p.1 == k) = true
  · rw [if_pos h]
    exact kvLookup_map_replace m k v h
  · rw [if_neg h]
    have hfa : m.any (fun p => p.1 == k) = false := Bool.eq_false_iff.mpr h
    have hf : ∀ p ∈ m, (p.1 == k) = false := by
      intro p hp
      exact Bool.eq_false_iff.mpr (List.any_eq_false.mp hfa p hp)
    exact kvLookup_append_right m k v hf

lemma upsertKV_lookup_other (m : List (String × String)) (k k' v : String)
    (hk : k' ≠ k) :
    kvLookup k' (upsertKV m k v) = kvLookup k' m := by
  unfold upsertKV
  by_cases h : m.any (fun p => p.1 == k) = true
  · rw [if_pos h]
    clear h
    induction m with
    | nil => rfl
    | cons p m ih =>
      by_cases hp : (p.1 == k) = true
      · have hpk : p.1 = k := by simpa using hp
        show kvLookup k' ((if p.1 == k then (k, v) else p)
          :: m.map (fun q => if q.1 == k then (k, v) else q)) = kvLookup k' (p :: m)
        rw [if_pos hp, kvLookup, kvLookup,
          if_neg (by simp [Ne.symm hk]), if_neg (by simp [hpk, Ne.symm hk])]
        exact ih
      · show kvLookup k' ((if p.1 == k then (k, v) else p)
          :: m.map (fun q => if q.1 == k then (k, v) else q)) = kvLookup k' (p :: m)
        rw [if_neg hp, kvLookup, kvLookup]
        by_cases hq : (p.1 == k') = true
        · rw [if_pos hq, if_pos hq]
        · rw [if_neg hq, if_neg hq]
          exact ih
  · rw [if_neg h]
    clear h
    induction m with
    | nil =>
      have hb : ((k, v).1 == k') = false := beq_eq_false_iff_ne.mpr (Ne.symm hk)
      simp [kvLookup, hb]
    | cons p m ih =>
      show kvLookup k' (p :: (m ++ [(k, v)])) = kvLookup k' (p :: m)
      rw [kvLookup, kvLookup]
      by_cases hq : (p.1 == k') = true
      · rw [if_pos hq, if_pos hq]
      · rw [if_neg hq, if_neg hq]
        exact ih

lemma upsertKV_keys_nodup (m : List (String × String)) (k v : String)
    (h : (m.map Prod.fst).Nodup) :
    ((upsertKV m k v).map Prod.fst).Nodup := by
  unfold upsertKV
  by_cases ha : m.any (fun p => p.1 == k) = true
  · rw [if_pos ha]
    have he : (m.map (fun p => if p.1 == k then (k, v) else p)).map Prod.fst
        = m.map Prod.fst := by
      rw [List.map_map]
      apply List.map_congr_left
      intro p _
      show (if p.1 == k then (k, v) else p).1 = p.1
      by_cases hp : (p.1 == k) = true
      · rw [if_pos hp]
        exact (beq_iff_eq.mp hp).symm
      · rw [if_neg hp]
    rw [he]
    exact h
  · rw [if_neg ha]
    have hnotin : k ∉ m.map Prod.fst := by
      intro hmem
      obtain ⟨p, hp, hfst⟩ := List.mem_map.mp hmem
      exact ha (List.any_eq_true.mpr ⟨p, hp, by simp [hfst]⟩)
    rw [List.map_append]
    apply List.Nodup.append h (List.nodup_singleton k)
    intro a ha2 hb
    rw [List.mem_singleton] at hb
    exact hnotin (hb ▸ ha2)

lemma mem_upsertKV_self (m : List (String × String)) (k v : String) :
    (k, v) ∈ upsertKV m k v := by
  unfold upsertKV
  by_cases ha : m.any (fun p => p.1 == k) = true
  · rw [if_pos ha]
    obtain ⟨p, hp, hpk⟩ := List.any_eq_true.mp ha
    exact List.mem_map.mpr ⟨p, hp, by simp [hpk]⟩
  · rw [if_neg ha]
    simp

lemma kvLookup_of_mem_nodup (m : List (String × String)) (k v : String)
    (hmem : (k, v) ∈ m) (h : (m.map Prod.fst).Nodup) :
    kvLookup k m = some v := by
  induction m with
  | nil => simp at hmem
  | cons p m ih =>
    rcases List.mem_cons.mp hmem with he | hm
    · rw [← he, kvLookup, if_pos (by simp)]
    · have hk : k ∈ m.map Prod.fst := List.mem_map.mpr ⟨(k, v), hm, rfl⟩
      have hn := List.nodup_cons.mp (show (p.1 :: m.map Prod.fst).Nodup from h)
      have hne : (p.1 == k) = false := by
        rw [beq_eq_false_iff_ne]
        intro he2
        exact hn.1 (he2 ▸ hk)
      rw [kvLookup, if_neg (by simp [hne])]
      exact ih hm hn.2

/-- C3: for every parameter mapping with distinct keys, 64-character key
material, and fixed timestamp, `enc_wbi` succeeds, the result carries
`wts` ↦ the timestamp, `w_rid` ↦ the lowercase-hex MD5 digest of the
URL-encoded, key-sorted parameter mapping (with `wts` included)
concatenated with the mixin key, and the whole computation is
deterministic — the model is a pure function, so repeated calls at the
same inputs are literally equal. -/
theorem enc_wbi_spec (params : List (String × String)) (img_key sub_key : String)
    (wts : Nat) (hkeys : (params.map Prod.fst).Nodup)
    (hlen : (img_key ++ sub_key).toList.length = 64) :
    (enc_wbi params img_key sub_key wts).isSome = true
    ∧ kvLookup "wts" ((enc_wbi params img_key sub_key wts).getD [])
        = some (toString wts)
    ∧ kvLookup "w_rid" ((enc_wbi params img_key sub_key wts).getD [])
        = some (md5HexOfString
            (urlencodeKV (sortParams (upsertKV params "wts" (toString wts)))
              ++ (get_mixin_key (img_key ++ sub_key)).getD ""))
    ∧ enc_wbi params img_key sub_key wts = enc_wbi params img_key sub_key wts := by
  obtain ⟨hsome, -, -⟩ := mixin_key_projection img_key sub_key hlen
  obtain ⟨mix, hmix⟩ := Option.isSome_iff_exists.mp hsome
  have henc : enc_wbi params img_key sub_key wts
      = some (upsertKV (sortParams (upsertKV params "wts" (toString wts))) "w_rid"
          (md5HexOfString
            (urlencodeKV (sortParams (upsertKV params "wts" (toString wts))) ++ mix))) := by
    unfold enc_wbi
    rw [hmix]
    rfl
  have hmixd : (get_mixin_key (img_key ++ sub_key)).getD "" = mix := by
    rw [hmix]
    rfl
  refine ⟨by rw [henc]; rfl, ?_, ?_, rfl⟩
  · rw [henc]
    show kvLookup "wts" (upsertKV _ "w_rid" _) = some (toString wts)
    rw [upsertKV_lookup_other _ _ _ _ (by decide)]
    apply kvLookup_of_mem_nodup
    · exact (List.perm_insertionSort kvLeP _).mem_iff.mpr
        (mem_upsertKV_self params "wts" (toString wts))
    · exact ((List.perm_insertionSort kvLeP _).map Prod.fst).nodup_iff.mpr
        (upsertKV_keys_nodup params "wts" (toString wts) hkeys)
  · rw [henc, hmixd]
    show kvLookup "w_rid" (upsertKV _ "w_rid" _) = some _
    rw [upsertKV_lookup_self]

set_option maxRecDepth 8192 in
theorem enc_wbi_spec_witness :
    (enc_wbi [("rid", "25"), ("type", "all")] "0123456789abcdef0123456789abcdef"
        "fedcba9876543210fedcba9876543210" 1700000000).isSome = true
    ∧ kvLookup "wts" ((enc_wbi [("rid", "25"), ("type", "all")]
          "0123456789abcdef0123456789abcdef" "fedcba9876543210fedcba9876543210"
          1700000000).getD []) = some (toString 1700000000)
    ∧ kvLookup "w_rid" ((enc_wbi [("rid", "25"), ("type", "all")]
          "0123456789abcdef0123456789abcdef" "fedcba9876543210fedcba9876543210"
          1700000000).getD [])
        = some (md5HexOfString
            (urlencodeKV (sortParams (upsertKV [("rid", "25"), ("type", "all")]
                "wts" (toString 1700000000)))
              ++ (get_mixin_key ("0123456789abcdef0123456789abcdef"
                  ++ "fedcba9876543210fedcba9876543210")).getD ""))
    ∧ enc_wbi [("rid", "25"), ("type", "all")] "0123456789abcdef0123456789abcdef"
          "fedcba9876543210fedcba9876543210" 1700000000
        = enc_wbi [("rid", "25"), ("type", "all")] "0123456789abcdef0123456789abcdef"
          "fedcba9876543210fedcba9876543210" 1700000000 :=
  enc_wbi_spec [("rid", "25"), ("type", "all")] "0123456789abcdef0123456789abcdef"
    "fedcba9876543210fedcba9876543210" 1700000000 (by decide) (by decide)

/-! ### C5 — reduce ordering -/

/-- C5 (amended): after the reduce step the items of a category are
ordered by priority ascending first and parsed publication time
descending within equal priority, where an unparseable or missing
`published` is ranked at the Unix epoch (`_ts` returns `0`) rather than
at the earliest possible instant; such an item therefore never outranks
an equal-priority item with a nonnegative timestamp, but does outrank
equal-priority items dated before 1970.  The model is a total function,
so the sort cannot raise. -/
theorem reduce_sorted_priority_recency (l : List NewsItem) :
    (reduceCategory l).Pairwise (fun a b =>
      itemPriority a < itemPriority b
        ∨ (itemPriority a = itemPriority b ∧ itemTs b ≤ itemTs a)) := by
  have hs : ((dedupeById l).insertionSort itemLe).Pairwise itemLe :=
    List.sorted_insertionSort itemLe (dedupeById l)
  have ht : (reduceCategory l).Pairwise itemLe :=
    List.Pairwise.sublist (List.take_sublist _ _) hs
  exact ht.imp (fun hab => by unfold itemLe at hab; omega)

/-- C5, as stated, is false: `_ts` maps an unparseable `published` to
`0` — the Unix epoch, not the earliest possible instant — so at equal
priority the unparseable item outranks an item correctly dated 1960,
whose timestamp is negative. -/
theorem unparseable_date_outranks_pre_epoch :
    reduceCategory [itemDated1960, itemNoDate] = [itemNoDate, itemDated1960]
    ∧ pyParseTs "not-a-date" = none
    ∧ pyParseTs "1960-01-01T00:00:00+00:00" = some (-315619200000000)
    ∧ itemDated1960.priority = itemNoDate.priority := by
  refine ⟨by decide, by decide, by decide, by decide⟩

/-! ### C7 — reduce idempotence -/

lemma dedupeGo_spec : ∀ (l : List NewsItem) (seen : List String),
    ((dedupeGo seen l).map NewsItem.id).Nodup
    ∧ ∀ x ∈ dedupeGo seen l, x.id ∉ seen := by
  intro l
  induction l with
  | nil => intro seen; exact ⟨List.nodup_nil, by simp [dedupeGo]⟩
  | cons it rest ih =>
    intro seen
    by_cases hmem : it.id ∈ seen
    · rw [dedupeGo, if_pos hmem]
      exact ih seen
    · rw [dedupeGo, if_neg hmem]
      obtain ⟨hnd, hni⟩ := ih (it.id :: seen)
      refine ⟨?_, ?_⟩
      · rw [List.map_cons, List.nodup_cons]
        refine ⟨fun hin => ?_, hnd⟩
        obtain ⟨x, hx, hxid⟩ := List.mem_map.mp hin
        exact hni x hx (by rw [hxid]; exact List.mem_cons_self _ _)
      · intro x hx
        rcases List.mem_cons.mp hx with he | hxr
        · rw [he]
          exact hmem
        · intro hcon
          exact hni x hxr (List.mem_cons_of_mem _ hcon)

lemma dedupeGo_eq_self : ∀ (l : List NewsItem) (seen : List String),
    (l.map NewsItem.id).Nodup → (∀ x ∈ l, x.id ∉ seen) → dedupeGo seen l = l := by
  intro l
  induction l with
  | nil => intro seen _ _; rfl
  | cons it rest ih =>
    intro seen hnd hdis
    have hcons := List.nodup_cons.mp (show (it.id :: rest.map NewsItem.id).Nodup from hnd)
    rw [dedupeGo, if_neg (hdis it (List.mem_cons_self _ _))]
    congr 1
    apply ih _ hcons.2
    intro x hx hcon
    rcases List.mem_cons.mp hcon with h1 | h2
    · exact hcons.1 (h1 ▸ List.mem_map.mpr ⟨x, hx, rfl⟩)
    · exact hdis x (List.mem_cons_of_mem _ hx) h2

lemma dedupeById_ids_nodup (l : List NewsItem) :
    ((dedupeById l).map NewsItem.id).Nodup :=
  (dedupeGo_spec l []).1

lemma dedupeById_eq_self (l : List NewsItem) (h : (l.map NewsItem.id).Nodup) :
    dedupeById l = l :=
  dedupeGo_eq_self l [] h (by simp)

lemma reduceCategory_length_le (l : List NewsItem) :
    (reduceCategory l).length ≤ MAX_ITEMS_PER_CATEGORY := by
  show (List.take _ _).length ≤ _
  rw [List.length_take]
  exact min_le_left _ _

/-- C7: the reduce step (dedup by id keeping the first occurrence, sort,
truncate) is idempotent, and on an input with duplicated ids it returns
exactly what it returns on the input with the later duplicates removed. -/
theorem reduce_idempotent (l : List NewsItem) :
    reduceCategory (reduceCategory l) = reduceCategory l
    ∧ reduceCategory l = reduceCategory (dedupeById l) := by
  constructor
  · have h2 : List.Perm (((dedupeById l).insertionSort itemLe).map NewsItem.id)
        ((dedupeById l).map NewsItem.id) :=
      (List.perm_insertionSort itemLe _).map _
    have h3 := h2.nodup_iff.mpr (dedupeById_ids_nodup l)
    have hnd : ((reduceCategory l).map NewsItem.id).Nodup :=
      List.Nodup.sublist (List.Sublist.map NewsItem.id (List.take_sublist _ _)) h3
    have hsorted : (reduceCategory l).Pairwise itemLe :=
      List.Pairwise.sublist (List.take_sublist _ _)
        (List.sorted_insertionSort itemLe (dedupeById l))
    show ((dedupeById (reduceCategory l)).insertionSort itemLe).take
        MAX_ITEMS_PER_CATEGORY = reduceCategory l
    rw [dedupeById_eq_self _ hnd, List.Sorted.insertionSort_eq hsorted]
    exact List.take_of_length_le (reduceCategory_length_le l)
  · have he : dedupeById (dedupeById l) = dedupeById l :=
      dedupeById_eq_self _ (dedupeById_ids_nodup l)
    show ((dedupeById l).insertionSort itemLe).take MAX_ITEMS_PER_CATEGORY
        = ((dedupeById (dedupeById l)).insertionSort itemLe).take MAX_ITEMS_PER_CATEGORY
    rw [he]

/-! ### C8 — cap enforcement -/

/-- C8: after the reduce step and after the merge step, a category never
holds more than `MAX_ITEMS_PER_CATEGORY` (50) items, whatever the input
batch and previous snapshot. -/
theorem category_caps (l : List NewsItem) (now : Int) (fresh oldL : List NewsItem) :
    (reduceCategory l).length ≤ MAX_ITEMS_PER_CATEGORY
    ∧ (mergeCategoryItems now fresh oldL).length ≤ MAX_ITEMS_PER_CATEGORY := by
  refine ⟨reduceCategory_length_le l, ?_⟩
  show (List.take _ _).length ≤ _
  rw [List.length_take]
  exact min_le_left _ _

/-! ### C9 — merge degrades to fresh data -/

/-- C9: when the persisted snapshot is missing, unreadable, or invalid
JSON, the merge returns the fresh categories unchanged — in the model a
total function, so nothing is raised, and the fresh data is untouched. -/
theorem merge_degrades_to_fresh (now : Int) (new_data : List (String × CatData))
    (load : SnapshotLoad)
    (h : load = SnapshotLoad.missing ∨ load = SnapshotLoad.unreadable
      ∨ load = SnapshotLoad.invalidJson) :
    merge_with_existing now load new_data = new_data := by
  rcases h with h | h | h <;> rw [h] <;> rfl

theorem merge_degrades_to_fresh_witness :
    merge_with_existing 0 SnapshotLoad.missing
        [("official", ⟨"头版头条", [itemFreshSample], 1⟩)]
      = [("official", ⟨"头版头条", [itemFreshSample], 1⟩)] :=
  merge_degrades_to_fresh 0 [("official", ⟨"头版头条", [itemFreshSample], 1⟩)]
    SnapshotLoad.missing (Or.inl rfl)

/-! ### C2 — merge retention -/

lemma dictInsertItem_mem {acc : List NewsItem} {it x : NewsItem}
    (h : x ∈ dictInsertItem acc it) : x ∈ acc ∨ x = it := by
  unfold dictInsertItem at h
  by_cases ha : acc.any (fun y => y.id == it.id) = true
  · rw [if_pos ha] at h
    obtain ⟨y, hy, hxy⟩ := List.mem_map.mp h
    by_cases hyid : (y.id == it.id) = true
    · rw [if_pos hyid] at hxy
      exact Or.inr hxy.symm
    · rw [if_neg hyid] at hxy
      exact Or.inl (hxy ▸ hy)
  · rw [if_neg ha] at h
    rcases List.mem_append.mp h with h1 | h2
    · exact Or.inl h1
    · exact Or.inr (List.mem_singleton.mp h2)

lemma dictInsertItem_ids_iff (acc : List NewsItem) (it : NewsItem) (k : String) :
    k ∈ (dictInsertItem acc it).map NewsItem.id
      ↔ k ∈ acc.map NewsItem.id ∨ k = it.id := by
  unfold dictInsertItem
  by_cases ha : acc.any (fun y => y.id == it.id) = true
  · rw [if_pos ha]
    have hidmap : (acc.map (fun y => if y.id == it.id then it else y)).map NewsItem.id
        = acc.map NewsItem.id := by
      rw [List.map_map]
      apply List.map_congr_left
      intro y _
      show (if y.id == it.id then it else y).id = y.id
      by_cases hy : (y.id == it.id) = true
      · rw [if_pos hy]
        exact (beq_iff_eq.mp hy).symm
      · rw [if_neg hy]
    rw [hidmap]
    constructor
    · exact Or.inl
    · rintro (h | h)
      · exact h
      · obtain ⟨y, hy, hyid⟩ := List.any_eq_true.mp ha
        rw [h, ← beq_iff_eq.mp hyid]
        exact List.mem_map.mpr ⟨y, hy, rfl⟩
  · rw [if_neg ha, List.map_append]
    simp

lemma foldl_dict_mem : ∀ (l acc : List NewsItem) (x : NewsItem),
    x ∈ l.foldl dictInsertItem acc → x ∈ acc ∨ x ∈ l := by
  intro l
  induction l with
  | nil => intro acc x h; exact Or.inl h
  | cons it rest ih =>
    intro acc x h
    rw [List.foldl_cons] at h
    rcases ih (dictInsertItem acc it) x h with h1 | h2
    · rcases dictInsertItem_mem h1 with h3 | h4
      · exact Or.inl h3
      · exact Or.inr (by rw [h4]; exact List.mem_cons_self _ _)
    · exact Or.inr (List.mem_cons_of_mem _ h2)

lemma foldl_dict_ids : ∀ (l acc : List NewsItem) (k : String),
    k ∈ (l.foldl dictInsertItem acc).map NewsItem.id
      ↔ k ∈ acc.map NewsItem.id ∨ k ∈ l.map NewsItem.id := by
  intro l
  induction l with
  | nil => intro acc k; simp
  | cons it rest ih =>
    intro acc k
    rw [List.foldl_cons, ih (dictInsertItem acc it) k, dictInsertItem_ids_iff]
    simp only [List.map_cons, List.mem_cons]
    tauto

lemma freshDict_mem_of (fresh : List NewsItem) (x : NewsItem)
    (h : x ∈ freshDict fresh) : x ∈ fresh := by
  rcases foldl_dict_mem fresh [] x h with h1 | h2
  · simp at h1
  · exact h2

lemma freshDict_ids (fresh : List NewsItem) (k : String) :
    k ∈ (freshDict fresh).map NewsItem.id ↔ k ∈ fresh.map NewsItem.id := by
  unfold freshDict
  rw [foldl_dict_ids]
  simp

lemma addOldItem_subset (now : Int) (m : List NewsItem) (old x : NewsItem)
    (h : x ∈ m) : x ∈ addOldItem now m old := by
  unfold addOldItem
  by_cases h1 : m.any (fun y => y.id == old.id) = true
  · rw [if_pos h1]
    exact h
  · rw [if_neg h1]
    by_cases h2 : oldKeep now old = true
    · rw [if_pos h2]
      exact List.mem_append_left _ h
    · rw [if_neg h2]
      exact h

lemma addOldItem_ids_sub (now : Int) (m : List NewsItem) (old : NewsItem) (k : String)
    (h : k ∈ m.map NewsItem.id) : k ∈ (addOldItem now m old).map NewsItem.id := by
  unfold addOldItem
  by_cases h1 : m.any (fun y => y.id == old.id) = true
  · rw [if_pos h1]
    exact h
  · rw [if_neg h1]
    by_cases h2 : oldKeep now old = true
    · rw [if_pos h2, List.map_append]
      exact List.mem_append_left _ h
    · rw [if_neg h2]
      exact h

lemma addOldItem_ids_mem (now : Int) (m : List NewsItem) (old : NewsItem) (k : String)
    (h : k ∈ (addOldItem now m old).map NewsItem.id) :
    k ∈ m.map NewsItem.id ∨ k = old.id := by
  unfold addOldItem at h
  by_cases h1 : m.any (fun y => y.id == old.id) = true
  · rw [if_pos h1] at h
    exact Or.inl h
  · rw [if_neg h1] at h
    by_cases h2 : oldKeep now old = true
    · rw [if_pos h2, List.map_append] at h
      rcases List.mem_append.mp h with h3 | h3
      · exact Or.inl h3
      · exact Or.inr (List.mem_singleton.mp h3)
    · rw [if_neg h2] at h
      exact Or.inl h

lemma addOldItem_mem (now : Int) (m : List NewsItem) (old x : NewsItem)
    (h : x ∈ addOldItem now m old) :
    x ∈ m ∨ (x = old ∧ oldKeep now old = true ∧ old.id ∉ m.map NewsItem.id) := by
  unfold addOldItem at h
  by_cases h1 : m.any (fun y => y.id == old.id) = true
  · rw [if_pos h1] at h
    exact Or.inl h
  · rw [if_neg h1] at h
    by_cases h2 : oldKeep now old = true
    · rw [if_pos h2] at h
      rcases List.mem_append.mp h with h3 | h3
      · exact Or.inl h3
      · refine Or.inr ⟨List.mem_singleton.mp h3, h2, fun hk => ?_⟩
        obtain ⟨y, hy, hyid⟩ := List.mem_map.mp hk
        exact h1 (List.any_eq_true.mpr ⟨y, hy, by simp [hyid]⟩)
    · rw [if_neg h2] at h
      exact Or.inl h

lemma foldl_addOld_mono (now : Int) : ∀ (olds m : List NewsItem) (x : NewsItem),
    x ∈ m → x ∈ olds.foldl (addOldItem now) m := by
  intro olds
  induction olds with
  | nil => intro m x h; exact h
  | cons o rest ih =>
    intro m x h
    rw [List.foldl_cons]
    exact ih _ x (addOldItem_subset now m o x h)

lemma foldl_addOld_sound (now : Int) : ∀ (olds m : List NewsItem) (x : NewsItem),
    x ∈ olds.foldl (addOldItem now) m →
    x ∈ m ∨ (x ∈ olds ∧ oldKeep now x = true ∧ x.id ∉ m.map NewsItem.id) := by
  intro olds
  induction olds with
  | nil => intro m x h; exact Or.inl h
  | cons o rest ih =>
    intro m x h
    rw [List.foldl_cons] at h
    rcases ih (addOldItem now m o) x h with h1 | ⟨hx, hk, hid⟩
    · rcases addOldItem_mem now m o x h1 with h2 | ⟨he, hk, hid⟩
      · exact Or.inl h2
      · subst he
        exact Or.inr ⟨List.mem_cons_self _ _, hk, hid⟩
    · refine Or.inr ⟨List.mem_cons_of_mem _ hx, hk, fun hc => hid ?_⟩
      exact addOldItem_ids_sub now m o x.id hc

lemma foldl_addOld_complete (now : Int) : ∀ (olds m : List NewsItem) (x : NewsItem),
    x ∈ olds → (olds.map NewsItem.id).Nodup → oldKeep now x = true →
    x.id ∉ m.map NewsItem.id → x ∈ olds.foldl (addOldItem now) m := by
  intro olds
  induction olds with
  | nil => intro m x h; simp at h
  | cons o rest ih =>
    intro m x hx hnd hk hid
    have hcons := List.nodup_cons.mp (show (o.id :: rest.map NewsItem.id).Nodup from hnd)
    rw [List.foldl_cons]
    rcases List.mem_cons.mp hx with he | hr
    · subst he
      have hany : m.any (fun y => y.id == x.id) = false := by
        rw [List.any_eq_false]
        intro y hy hcon
        exact hid (List.mem_map.mpr ⟨y, hy, beq_iff_eq.mp hcon⟩)
      have hstep : addOldItem now m x = m ++ [x] := by
        unfold addOldItem
        rw [if_neg (by simp [hany]), if_pos hk]
      rw [hstep]
      exact foldl_addOld_mono now rest (m ++ [x]) x
        (List.mem_append_right _ (List.mem_singleton.mpr rfl))
    · have hxo : x.id ≠ o.id := by
        intro he
        exact hcons.1 (he ▸ List.mem_map.mpr ⟨x, hr, rfl⟩)
      apply ih _ x hr hcons.2 hk
      intro hc
      rcases addOldItem_ids_mem now m o x.id hc with h3 | h3
      · exact hid h3
      · exact hxo h3

/-- C2: in the merge step's id-keyed union (the state of `new_items`
when `list(new_items.values())` is taken, before the recency re-sort and
truncation): any member whose id occurs among the fresh items is a fresh
item — a persisted version of a colliding id never survives; and a
previous item whose id is absent from the fresh ids is kept iff its
`published` field is present, parses, and is strictly after
`now - maxAge`.  In particular an old item timestamped exactly at
`now - maxAge` is excluded, one a second younger is retained, and
malformed or missing `published` always drops the item. -/
theorem merge_retention (now : Int) (fresh oldL : List NewsItem)
    (hold : (oldL.map NewsItem.id).Nodup) :
    (∀ x ∈ mergeCandidates now fresh oldL,
        x.id ∈ fresh.map NewsItem.id → x ∈ fresh)
    ∧ (∀ old ∈ oldL, old.id ∉ fresh.map NewsItem.id →
        (old ∈ mergeCandidates now fresh oldL ↔
          ∃ s t, old.published = some s ∧ pyParseTs s = some t
            ∧ cutoffMicros now < t)) := by
  constructor
  · intro x hx hid
    rcases foldl_addOld_sound now oldL (freshDict fresh) x hx with h1 | ⟨-, -, hnid⟩
    · exact freshDict_mem_of fresh x h1
    · exact absurd ((freshDict_ids fresh x.id).mpr hid) hnid
  · intro old hmem hnid
    constructor
    · intro hin
      rcases foldl_addOld_sound now oldL (freshDict fresh) old hin with h1 | ⟨-, hk, -⟩
      · have hids : old.id ∈ (freshDict fresh).map NewsItem.id :=
          List.mem_map.mpr ⟨old, h1, rfl⟩
        exact absurd ((freshDict_ids fresh old.id).mp hids) hnid
      · unfold oldKeep at hk
        cases hpub : old.published with
        | none =>
          rw [hpub] at hk
          exact absurd hk (by simp)
        | some s =>
          rw [hpub] at hk
          have hk2 : (match pyParseTs s with
              | none => false
              | some t => decide (cutoffMicros now < t)) = true := hk
          cases hts : pyParseTs s with
          | none =>
            rw [hts] at hk2
            exact absurd hk2 (by simp)
          | some t =>
            rw [hts] at hk2
            exact ⟨s, t, rfl, hts, of_decide_eq_true hk2⟩
    · rintro ⟨s, t, hs, ht, hlt⟩
      have hk : oldKeep now old = true := by
        unfold oldKeep
        rw [hs]
        show (match pyParseTs s with
            | none => false
            | some t => decide (cutoffMicros now < t)) = true
        rw [ht]
        exact decide_eq_true hlt
      apply foldl_addOld_complete now oldL (freshDict fresh) old hmem hold hk
      intro hc
      exact hnid ((freshDict_ids fresh old.id).mp hc)

theorem merge_retention_witness :
    itemJustInside ∈ mergeCandidates sampleNow [itemFreshSample] [itemAtCutoff, itemJustInside]
    ∧ itemAtCutoff ∉ mergeCandidates sampleNow [itemFreshSample] [itemAtCutoff, itemJustInside] := by
  have h := merge_retention sampleNow [itemFreshSample] [itemAtCutoff, itemJustInside] (by decide)
  constructor
  · exact (h.2 itemJustInside (by decide) (by decide)).mpr
      ⟨"2024-01-01T00:00:01+00:00", 1704067201000000, rfl, by decide, by decide⟩
  · intro hmem
    obtain ⟨s, t, hs, ht, hlt⟩ := (h.2 itemAtCutoff (by decide) (by decide)).mp hmem
    have hs' : "2024-01-01T00:00:00+00:00" = s := Option.some_inj.mp hs
    rw [← hs'] at ht
    have hparse : pyParseTs "2024-01-01T00:00:00+00:00" = some 1704067200000000 := by
      decide
    rw [hparse] at ht
    have ht' : (1704067200000000 : Int) = t := Option.some_inj.mp ht
    rw [← ht'] at hlt
    exact absurd hlt (by decide)
